import Mathlib

/-!
Verification development for the tilelive-redis caching decorator
(src/index.js).

Modelling conventions, all translated from the source:

* Byte sequences (node Buffers and redis values) are modelled as `List Char`;
  a JS string and its UTF-8 byte image are identified, which is faithful
  because UTF-8 encoding is injective and the code only slices at the first
  byte, concatenates, and compares whole sequences.
* `JSON.stringify` / `JSON.parse` (platform builtins used by `encode` /
  `decode`) are modelled by a concrete serializer and recursive-descent
  reader over a JSON value tree.  Escaping is implemented for the two
  structurally relevant characters (quote and backslash); control-character
  escaping is omitted since it does not change the composition
  parse-after-serialize.  The reader does not skip whitespace; the
  serializer emits none.
* Machine integers do not overflow in any modelled computation, so Nat / Int
  are used directly.
* A thrown JS exception is modelled with `Except Unit`; `null` results are
  `Option.none`.
* The npm dependency buffer-equal returns `undefined` (falsy) when either
  argument is not a Buffer; this is modelled by `bufferEqual` returning
  `Option Bool` with `none` for the undefined case.
-/

mutual
/-- JSON value tree, mutually with spines for arrays and objects so that
structural recursion and induction stay simple. -/
inductive JVal where
| jnull : JVal
| jbool : Bool → JVal
| jnum : Int → JVal
| jstr : List Char → JVal
| jarr : JArr → JVal
| jobj : JObj → JVal
deriving Repr
inductive JArr where
| anil : JArr
| acons : JVal → JArr → JArr
deriving Repr
inductive JObj where
| onil : JObj
| ocons : List Char → JVal → JObj → JObj
deriving Repr
end

/-- Decimal digit to character. -/
def digChar : Nat → Char
| 0 => '0'
| 1 => '1'
| 2 => '2'
| 3 => '3'
| 4 => '4'
| 5 => '5'
| 6 => '6'
| 7 => '7'
| 8 => '8'
| _ => '9'

/-- Character to decimal digit value. -/
def digVal (c : Char) : Nat := c.toNat - 48

/-- Little-endian decimal digits with explicit fuel, so that the kernel
can evaluate it on literals. -/
def natDigitsRev : Nat → Nat → List Nat
| 0, _ => []
| fuel + 1, n => if n = 0 then [] else n % 10 :: natDigitsRev fuel (n / 10)

/-- Decimal representation of a natural number, most significant digit
first, as emitted by JSON.stringify and by Number.prototype.toString. -/
def natChars (n : Nat) : List Char :=
  if n = 0 then ['0'] else (natDigitsRev n n).reverse.map digChar

/-- Escape of one character inside a JSON string literal. -/
def escChar (c : Char) : List Char :=
  if c = '\"' ∨ c = '\\' then ['\\', c] else [c]

/-- Body of a JSON string literal. -/
def escBody (s : List Char) : List Char := s.flatMap escChar

/-- JSON string literal with surrounding quotes. -/
def strLit (s : List Char) : List Char := '\"' :: (escBody s ++ ['\"'])

mutual
/-- Model of JSON.stringify on the value tree. -/
def stringify : JVal → List Char
| .jnull => ['n', 'u', 'l', 'l']
| .jbool true => ['t', 'r', 'u', 'e']
| .jbool false => ['f', 'a', 'l', 's', 'e']
| .jnum n => if n < 0 then '-' :: natChars n.natAbs else natChars n.toNat
| .jstr s => strLit s
| .jarr a => '[' :: (stringifyArr a ++ [']'])
| .jobj o => '\x7b' :: (stringifyObj o ++ ['\x7d'])
/-- Comma-separated serialization of array elements. -/
def stringifyArr : JArr → List Char
| .anil => []
| .acons v .anil => stringify v
| .acons v (.acons w r) => stringify v ++ ',' :: stringifyArr (.acons w r)
/-- Comma-separated serialization of object fields. -/
def stringifyObj : JObj → List Char
| .onil => []
| .ocons k v .onil => strLit k ++ ':' :: stringify v
| .ocons k v (.ocons k2 w r) =>
    strLit k ++ ':' :: stringify v ++ ',' :: stringifyObj (.ocons k2 w r)
end

/-- Reader for a JSON string literal body: consumes up to the closing
quote, unescaping backslash pairs; returns the string and the rest. -/
def readStr : List Char → Option (List Char × List Char)
| [] => none
| c :: rest =>
  if c = '\\' then
    match rest with
    | [] => none
    | c2 :: rest2 => (readStr rest2).map (fun p => (c2 :: p.1, p.2))
  else if c = '\"' then some ([], rest)
  else (readStr rest).map (fun p => (c :: p.1, p.2))

/-- Greedy decimal digit reader with accumulator. -/
def readDigits : Nat → List Char → Nat × List Char
| acc, [] => (acc, [])
| acc, c :: rest =>
  if c.isDigit then readDigits (acc * 10 + digVal c) rest else (acc, c :: rest)

mutual
/-- Recursive-descent reader for a JSON value, fuelled for termination. -/
def readVal : Nat → List Char → Option (JVal × List Char)
| 0, _ => none
| _ + 1, [] => none
| fuel + 1, c :: rest =>
  if c = 'n' then
    match rest with
    | 'u' :: 'l' :: 'l' :: r => some (.jnull, r)
    | _ => none
  else if c = 't' then
    match rest with
    | 'r' :: 'u' :: 'e' :: r => some (.jbool true, r)
    | _ => none
  else if c = 'f' then
    match rest with
    | 'a' :: 'l' :: 's' :: 'e' :: r => some (.jbool false, r)
    | _ => none
  else if c = '\"' then (readStr rest).map (fun p => (.jstr p.1, p.2))
  else if c = '-' then
    match rest with
    | [] => none
    | c2 :: r2 =>
      if c2.isDigit then
        some (.jnum (-((readDigits (digVal c2) r2).1 : Int)),
              (readDigits (digVal c2) r2).2)
      else none
  else if c = '[' then
    match rest with
    | ']' :: r => some (.jarr .anil, r)
    | _ => (readItems fuel rest).map (fun p => (.jarr p.1, p.2))
  else if c = '\x7b' then
    match rest with
    | '\x7d' :: r => some (.jobj .onil, r)
    | _ => (readFields fuel rest).map (fun p => (.jobj p.1, p.2))
  else if c.isDigit then
    some (.jnum ((readDigits (digVal c) rest).1 : Int),
          (readDigits (digVal c) rest).2)
  else none
/-- Reader for one or more array items followed by the closing bracket. -/
def readItems : Nat → List Char → Option (JArr × List Char)
| 0, _ => none
| fuel + 1, input =>
  match readVal fuel input with
  | none => none
  | some (v, r) =>
    match r with
    | ',' :: r2 => (readItems fuel r2).map (fun p => (.acons v p.1, p.2))
    | ']' :: r2 => some (.acons v .anil, r2)
    | _ => none
/-- Reader for one or more object fields followed by the closing brace. -/
def readFields : Nat → List Char → Option (JObj × List Char)
| 0, _ => none
| fuel + 1, input =>
  match input with
  | '\"' :: rest =>
    match readStr rest with
    | none => none
    | some (k, r) =>
      match r with
      | ':' :: r2 =>
        match readVal fuel r2 with
        | none => none
        | some (v, r3) =>
          match r3 with
          | ',' :: r4 => (readFields fuel r4).map (fun p => (.ocons k v p.1, p.2))
          | '\x7d' :: r4 => some (.ocons k v .onil, r4)
          | _ => none
      | _ => none
  | _ => none
end

/-- Model of JSON.parse: the whole input must be consumed. -/
def jsonParse (s : List Char) : Option JVal :=
  match readVal (s.length + 1) s with
  | some (v, []) => some v
  | _ => none

/-- JS Error object as used by the source: optional numeric status and code
fields, the redis marker set by decode, and a message. -/
structure JsError where
  status : Option Nat
  code : Option Nat
  redis : Bool
  msg : List Char
deriving Repr, DecidableEq

/-- Value produced by encode: either a node Buffer or a JS string (the
source returns the string E404 or E403 for negative outcomes and a Buffer
otherwise).  The distinction matters because buffer-equal treats strings
as undefined. -/
inductive EncVal where
| buf : List Char → EncVal
| str : List Char → EncVal
deriving Repr, DecidableEq

/-- Byte image of an encoded value as stored by redis. -/
def encBytes : EncVal → List Char
| .buf b => b
| .str s => s

/-- Value of the cached variable in race: the raw redis entry, or the
string 500 used as a sentinel for a miss or a decode failure. -/
inductive CachedVal where
| entry : List Char → CachedVal
| s500 : CachedVal
deriving Repr, DecidableEq

/-- Payload of an upstream fetch result: a structured JS array or object,
a text string, a binary Buffer, or absent (null / undefined). -/
inductive Payload where
| parr : JArr → Payload
| pobj : JObj → Payload
| pstr : List Char → Payload
| pbuf : List Char → Payload
| pabsent : Payload
deriving Repr

/-- Model of errcode from src/index.js lines 169 to 176: classify an error
by its status field first, then its code field, into 404 or 403. -/
def errcode : Option JsError → Option Nat
| none => none
| some e =>
  if e.status = some 404 then some 404
  else if e.status = some 403 then some 403
  else if e.code = some 404 then some 404
  else if e.code = some 403 then some 403
  else none

/-- Model of encode from src/index.js lines 178 to 197.  A classified
negative error becomes the JS string E404 or E403; any other error encodes
to null (not cached); a structured payload becomes an O-tagged JSON
Buffer; a nonempty string becomes an S-tagged Buffer; a Buffer becomes a
B-tagged Buffer.  An absent payload, or the falsy empty string, reaches
Buffer.concat with a non-Buffer second element and throws a TypeError,
modelled by Except.error. -/
def encode (err : Option JsError) (buffer : Payload) : Except Unit (Option EncVal) :=
  match errcode err with
  | some c => .ok (some (.str ('E' :: natChars c)))
  | none =>
    match err with
    | some _ => .ok none
    | none =>
      match buffer with
      | .parr a => .ok (some (.buf ('O' :: stringify (.jarr a))))
      | .pobj o => .ok (some (.buf ('O' :: stringify (.jobj o))))
      | .pstr s => if s = [] then .error () else .ok (some (.buf ('S' :: s)))
      | .pbuf b => .ok (some (.buf ('B' :: b)))
      | .pabsent => .error ()

/-- Message of the Error returned by decode on an unrecognized tag. -/
def invalidMsg : List Char :=
  ['I', 'n', 'v', 'a', 'l', 'i', 'd', ' ', 'c', 'a', 'c', 'h', 'e', ' ',
   'v', 'a', 'l', 'u', 'e']

/-- JS value returned by decode: an Error instance, a parsed JSON value,
a string, or a Buffer. -/
inductive Decoded where
| errVal : JsError → Decoded
| objVal : JVal → Decoded
| strVal : List Char → Decoded
| bufVal : List Char → Decoded
deriving Repr

/-- Model of decode from src/index.js lines 199 to 216.  An E entry whose
remainder is exactly 404 or 403 yields a reconstructed Error with status,
code and the redis marker.  Any other unrecognized tag yields (returns,
not throws) an Error with message Invalid cache value.  An O entry is
parsed as JSON, where a parse failure throws; an S entry yields the
remainder as a string; a B entry yields the remainder as a Buffer. -/
def decode (encoded : List Char) : Except Unit Decoded :=
  let hint := encoded.take 1
  let buffer := encoded.drop 1
  if hint = ['E'] ∧ (buffer = ['4', '0', '4'] ∨ buffer = ['4', '0', '3']) then
    let n : Nat := if buffer = ['4', '0', '4'] then 404 else 403
    .ok (.errVal ⟨some n, some n, true, []⟩)
  else if ¬(hint = ['O'] ∨ hint = ['S'] ∨ hint = ['B']) then
    .ok (.errVal ⟨none, none, false, invalidMsg⟩)
  else if hint = ['O'] then
    match jsonParse buffer with
    | some j => .ok (.objVal j)
    | none => .error ()
  else if hint = ['S'] then .ok (.strVal buffer)
  else .ok (.bufVal buffer)

/-- JS truthiness of a decoded JSON value at top level. -/
def jTruthy : JVal → Bool
| .jnull => false
| .jbool b => b
| .jnum n => n != 0
| .jstr s => !s.isEmpty
| .jarr _ => true
| .jobj _ => true

/-- JS truthiness of the data variable after decode: Error objects,
Buffers (even empty) and nonempty strings are truthy. -/
def Decoded.truthy : Decoded → Bool
| .errVal _ => true
| .objVal j => jTruthy j
| .strVal s => !s.isEmpty
| .bufVal _ => true

/-- Common JS value type for what a callback receives as second argument. -/
inductive JsVal where
| vundefined : JsVal
| vnull : JsVal
| vbool : Bool → JsVal
| vnum : Int → JsVal
| vstr : List Char → JsVal
| vbuf : List Char → JsVal
| varr : JArr → JsVal
| vobj : JObj → JsVal
deriving Repr

/-- View of a parsed JSON value as a JS value. -/
def jToJs : JVal → JsVal
| .jnull => .vnull
| .jbool b => .vbool b
| .jnum n => .vnum n
| .jstr s => .vstr s
| .jarr a => .varr a
| .jobj o => .vobj o

/-- View of an upstream payload as a JS value (absent is undefined). -/
def payloadJs : Payload → JsVal
| .parr a => .varr a
| .pobj o => .vobj o
| .pstr s => .vstr s
| .pbuf b => .vbuf b
| .pabsent => .vundefined

/-- View of a truthy decoded non-error value as a JS value. -/
def decodedJs : Decoded → JsVal
| .errVal _ => .vundefined
| .objVal j => jToJs j
| .strVal s => .vstr s
| .bufVal b => .vbuf b

/-- Model of the npm package buffer-equal: undefined (none) unless both
arguments are Buffers, otherwise byte equality. -/
def bufferEqual : CachedVal → EncVal → Option Bool
| .entry b, .buf v => some (b = v)
| _, _ => none

/-- TTL configuration: a flat number of seconds or a hostname map with an
optional default. -/
inductive TTLCfg where
| num : Nat → TTLCfg
| map : List (List Char × Nat) → Option Nat → TTLCfg
deriving Repr

/-- Association list lookup by hostname. -/
def lookupAssoc : List (List Char × Nat) → List Char → Option Nat
| [], _ => none
| (k, v) :: rest, h => if k = h then some v else lookupAssoc rest h

/-- JS or-fallback: a present but falsy (zero) value falls through. -/
def orFalsy (a : Option Nat) (b : Nat) : Nat :=
  match a with
  | some k => if k = 0 then b else k
  | none => b

/-- URL with its parsed hostname (url.parse is a platform builtin). -/
structure Url where
  full : List Char
  hostname : List Char
deriving Repr, DecidableEq

/-- Decorator configuration: namespace, expires option, and the redis
client command queue length and high water mark. -/
structure Cfg where
  ns : List Char
  expires : TTLCfg
  queueLen : Nat
  highWater : Nat
deriving Repr

/-- Cache key, namespace plus dash plus url (src/index.js lines 49, 111). -/
def cacheKey (cfg : Cfg) (url : Url) : List Char := cfg.ns ++ '-' :: url.full

/-- Expiry resolution (src/index.js lines 53 to 57 and 115 to 119):
a numeric option is used directly, otherwise hostname lookup, then the
default entry, then 300, with JS falsy fallthrough. -/
def resolveExpires (cfg : Cfg) (url : Url) : Nat :=
  match cfg.expires with
  | .num n => n
  | .map es d => orFalsy (lookupAssoc es url.hostname) (orFalsy d 300)

/-- Arguments of one caller callback invocation. -/
structure Delivery where
  err : Option JsError
  val : JsVal
  headers : Option Nat
deriving Repr

/-- One setex call: key, expiry seconds, and the value argument. -/
structure Write where
  key : List Char
  ttl : Nat
  value : Option EncVal
deriving Repr

/-- Diagnostic events emitted on the client. -/
inductive Diag where
| highwater : Diag
| storeErr : List Char → Diag
| decodeErr : List Char → Diag
deriving Repr, DecidableEq

/-- Observable trace of one decorated invocation: redis get calls issued,
caller callback invocations, setex calls, diagnostics, and whether an
uncaught exception escaped (which halts the process). -/
structure Trace where
  gets : List (List Char)
  deliveries : List Delivery
  writes : List Write
  diags : List Diag
  crashed : Bool
deriving Repr

/-- Result of the upstream get call: error, payload, optional headers. -/
structure UpResult where
  err : Option JsError
  buffer : Payload
  headers : Option Nat
deriving Repr

/-- Reply of the redis get: an error, or a value that is either a stored
entry or null for a miss. -/
inductive StoreReply where
| err : StoreReply
| val : Option (List Char) → StoreReply
deriving Repr

/-- Completion order of the two concurrent branches in race. -/
inductive Order where
| upFirst : Order
| storeFirst : Order
deriving Repr, DecidableEq

/-- Mutable state shared by the two race callbacks (src/index.js lines 58
to 60): the sent flag and the cached and current encodings. -/
structure RaceSt where
  sent : Bool
  cached : Option CachedVal
  current : Option EncVal

/-- Effect of one callback: deliveries, writes, diagnostics, crash flag. -/
structure StepOut where
  deliveries : List Delivery
  writes : List Write
  diags : List Diag
  crashed : Bool

/-- Model of finalize (src/index.js lines 100 to 107): skip the write only
when buffer-equal returns true; a false or undefined comparison writes the
current encoding. -/
def finalizeWrites (key : List Char) (exp : Nat) (cached : CachedVal)
    (current : EncVal) : List Write :=
  match bufferEqual cached current with
  | some true => []
  | _ => [⟨key, exp, some current⟩]

/-- Model of the race upstream callback (src/index.js lines 63 to 69):
compute current, run finalize if both encodings are set, then deliver
unless preempted.  A throw inside encode crashes the callback before the
sent flag is read. -/
def upstreamStep (key : List Char) (exp : Nat) (u : UpResult) (st : RaceSt) :
    RaceSt × StepOut :=
  match encode u.err u.buffer with
  | .error _ => (st, ⟨[], [], [], true⟩)
  | .ok enc =>
    let st1 : RaceSt := ⟨st.sent, st.cached, enc⟩
    let ws : List Write :=
      match st.cached, enc with
      | some c, some e => finalizeWrites key exp c e
      | _, _ => []
    if st.sent then (st1, ⟨[], ws, [], false⟩)
    else (⟨true, st1.cached, st1.current⟩,
          ⟨[⟨u.err, payloadJs u.buffer, u.headers⟩], ws, [], false⟩)

/-- Model of the race redis callback (src/index.js lines 75 to 95): on a
get error only a diagnostic is emitted; otherwise cached is set (500 on a
miss), finalize runs if current is set, then unless preempted or a miss
the entry is decoded, a decode throw being caught (diagnostic, cached set
to 500), and a truthy decode result is delivered. -/
def storeStep (key : List Char) (exp : Nat) (reply : StoreReply) (st : RaceSt) :
    RaceSt × StepOut :=
  match reply with
  | .err => (st, ⟨[], [], [.storeErr key], false⟩)
  | .val encodedOpt =>
    match encodedOpt with
    | none =>
      let st1 : RaceSt := ⟨st.sent, some .s500, st.current⟩
      let ws : List Write :=
        match st.current with
        | some e => finalizeWrites key exp .s500 e
        | none => []
      (st1, ⟨[], ws, [], false⟩)
    | some b =>
      let st1 : RaceSt := ⟨st.sent, some (.entry b), st.current⟩
      let ws : List Write :=
        match st.current with
        | some e => finalizeWrites key exp (.entry b) e
        | none => []
      if st.sent then (st1, ⟨[], ws, [], false⟩)
      else
        match decode b with
        | .error _ =>
          (⟨st1.sent, some .s500, st1.current⟩, ⟨[], ws, [.decodeErr key], false⟩)
        | .ok d =>
          if d.truthy then
            match d with
            | .errVal e =>
              (⟨true, st1.cached, st1.current⟩,
               ⟨[⟨some e, .vundefined, none⟩], ws, [], false⟩)
            | _ =>
              (⟨true, st1.cached, st1.current⟩,
               ⟨[⟨none, decodedJs d, none⟩], ws, [], false⟩)
          else (st1, ⟨[], ws, [], false⟩)

/-- Model of race (src/index.js lines 48 to 108).  The upstream get is
always issued; the redis get is issued only when the command queue is
below the high water mark, otherwise a diagnostic is emitted.  The two
completions are interleaved in the given order; an uncaught crash in the
first callback halts the process so the second never runs. -/
def raceExec (cfg : Cfg) (url : Url) (u : UpResult) (reply : StoreReply)
    (ord : Order) : Trace :=
  let key := cacheKey cfg url
  let exp := resolveExpires cfg url
  let st0 : RaceSt := ⟨false, none, none⟩
  if cfg.queueLen < cfg.highWater then
    match ord with
    | .upFirst =>
      let r1 := upstreamStep key exp u st0
      if r1.2.crashed then
        ⟨[key], r1.2.deliveries, r1.2.writes, r1.2.diags, true⟩
      else
        let r2 := storeStep key exp reply r1.1
        ⟨[key], r1.2.deliveries ++ r2.2.deliveries, r1.2.writes ++ r2.2.writes,
         r1.2.diags ++ r2.2.diags, r2.2.crashed⟩
    | .storeFirst =>
      let r1 := storeStep key exp reply st0
      if r1.2.crashed then
        ⟨[key], r1.2.deliveries, r1.2.writes, r1.2.diags, true⟩
      else
        let r2 := upstreamStep key exp u r1.1
        ⟨[key], r1.2.deliveries ++ r2.2.deliveries, r1.2.writes ++ r2.2.writes,
         r1.2.diags ++ r2.2.diags, r2.2.crashed⟩
  else
    let r1 := upstreamStep key exp u st0
    ⟨[], r1.2.deliveries, r1.2.writes, .highwater :: r1.2.diags, r1.2.crashed⟩

/-- Tail of the readthrough miss branch (src/index.js lines 145 to 154):
an unclassified error is passed to the caller alone and nothing is
written; otherwise the caller receives the upstream result and setex is
called with the encoding, whose throw would escape after delivery. -/
def readthroughMiss (key : List Char) (exp : Nat) (gets : List (List Char))
    (dg : List Diag) (u : UpResult) : Trace :=
  match u.err, errcode u.err with
  | some e, none => ⟨gets, [⟨some e, .vundefined, none⟩], [], dg, false⟩
  | _, _ =>
    match encode u.err u.buffer with
    | .error _ => ⟨gets, [⟨u.err, payloadJs u.buffer, u.headers⟩], [], dg, true⟩
    | .ok enc =>
      ⟨gets, [⟨u.err, payloadJs u.buffer, u.headers⟩], [⟨key, exp, enc⟩], dg, false⟩

/-- Model of readthrough (src/index.js lines 110 to 160).  When the queue
is at the high water mark the store is bypassed entirely.  A redis get
error surfaces a diagnostic and falls through to the upstream get with no
later write.  A present entry is decoded (a throw is caught with a
diagnostic); a truthy decoded Error is delivered as the error, another
truthy decoded value as the result; otherwise the miss branch runs. -/
def readthroughExec (cfg : Cfg) (url : Url) (reply : StoreReply) (u : UpResult) :
    Trace :=
  let key := cacheKey cfg url
  let exp := resolveExpires cfg url
  if cfg.queueLen < cfg.highWater then
    match reply with
    | .err =>
      ⟨[key], [⟨u.err, payloadJs u.buffer, u.headers⟩], [], [.storeErr key], false⟩
    | .val encodedOpt =>
      match encodedOpt with
      | none => readthroughMiss key exp [key] [] u
      | some b =>
        match decode b with
        | .error _ => readthroughMiss key exp [key] [.decodeErr key] u
        | .ok d =>
          if d.truthy then
            match d with
            | .errVal e => ⟨[key], [⟨some e, .vundefined, none⟩], [], [], false⟩
            | _ => ⟨[key], [⟨none, decodedJs d, none⟩], [], [], false⟩
          else readthroughMiss key exp [key] [] u
  else
    ⟨[], [⟨u.err, payloadJs u.buffer, u.headers⟩], [], [.highwater], false⟩

/-- Callback arguments the undecorated upstream get would deliver. -/
def upstreamDelivery (u : UpResult) : Delivery :=
  ⟨u.err, payloadJs u.buffer, u.headers⟩

/-- Callback arguments the race store branch delivers for a truthy
decoded value. -/
def storeDelivery : Decoded → Delivery
| .errVal e => ⟨some e, .vundefined, none⟩
| d => ⟨none, decodedJs d, none⟩

/-- Store contents after replaying a list of setex writes. -/
def applyWrites (ws : List Write) (st : List Char → Option (List Char)) :
    List Char → Option (List Char) :=
  match ws with
  | [] => st
  | w :: rest =>
    applyWrites rest (fun k => if k = w.key then w.value.map encBytes else st k)

/-- Fetch outcome at the abstraction level of the specification data
model: negative 404 and 403 outcomes, other failures, and success with a
payload. -/
inductive Outcome where
| notFound : Outcome
| forbidden : Outcome
| otherError : Outcome
| ok : Payload → Outcome
deriving Repr

/-- Classification of an upstream (error, payload) pair as an outcome. -/
def outcomeOfUp (err : Option JsError) (p : Payload) : Outcome :=
  match errcode err with
  | some 404 => .notFound
  | some 403 => .forbidden
  | some _ => .otherError
  | none =>
    match err with
    | some _ => .otherError
    | none => .ok p

/-- Classification of a decoded value as an outcome, when it represents
one. -/
def outcomeOfDec : Decoded → Option Outcome
| .errVal e =>
  match errcode (some e) with
  | some 404 => some .notFound
  | some 403 => some .forbidden
  | _ => none
| .objVal (.jarr a) => some (.ok (.parr a))
| .objVal (.jobj o) => some (.ok (.pobj o))
| .objVal _ => none
| .strVal s => some (.ok (.pstr s))
| .bufVal b => some (.ok (.pbuf b))

/-- Composition of encode, storage as raw bytes, and decode, viewed as an
outcome; none when encode refuses, throws, or decode fails. -/
def codecRT (err : Option JsError) (p : Payload) : Option Outcome :=
  match encode err p with
  | .ok (some e) =>
    match decode (encBytes e) with
    | .ok d => outcomeOfDec d
    | .error _ => none
  | _ => none

/-- Representable outcome pairs per the claim, amended: a classified 404
or 403 error, or an errorless structured, nonempty text, or binary
payload. -/
def representableUp (err : Option JsError) (p : Payload) : Prop :=
  (errcode err).isSome ∨
  (err = none ∧
    match p with
    | .parr _ => True
    | .pobj _ => True
    | .pstr s => s ≠ []
    | .pbuf _ => True
    | .pabsent => False)

/-- Whether the input begins with a decimal digit (greedy number reading
would continue into it). -/
def digStart : List Char → Bool
| [] => false
| c :: _ => c.isDigit

mutual
/-- Node count of a JSON value, a lower bound for the reader fuel. -/
def sizeJ : JVal → Nat
| .jnull => 1
| .jbool _ => 1
| .jnum _ => 1
| .jstr _ => 1
| .jarr a => sizeA a + 1
| .jobj o => sizeO o + 1
/-- Node count of an array spine. -/
def sizeA : JArr → Nat
| .anil => 0
| .acons v r => sizeJ v + sizeA r + 1
/-- Node count of an object spine. -/
def sizeO : JObj → Nat
| .onil => 0
| .ocons _ v r => sizeJ v + sizeO r + 1
end

theorem digChar_spec (d : Nat) (h : d < 10) :
    (digChar d).isDigit = true ∧ digVal (digChar d) = d ∧
    digChar d ≠ 'n' ∧ digChar d ≠ 't' ∧ digChar d ≠ 'f' ∧
    digChar d ≠ '\"' ∧ digChar d ≠ '-' ∧ digChar d ≠ '[' ∧
    digChar d ≠ '\x7b' ∧ digChar d ≠ ']' ∧ digChar d ≠ '\x7d' := by
  interval_cases d <;> decide

theorem readDigits_append (ds : List Nat) :
    ∀ (acc : Nat) (rest : List Char), (∀ d ∈ ds, d < 10) →
    digStart rest = false →
    readDigits acc (ds.map digChar ++ rest) =
      (ds.foldl (fun a d => a * 10 + d) acc, rest) := by
  induction ds with
  | nil =>
    intro acc rest _ hr
    match rest with
    | [] => simp [readDigits]
    | c :: t =>
      simp only [digStart] at hr
      simp [readDigits, hr]
  | cons d ds ih =>
    intro acc rest hd hr
    have hd0 : d < 10 := hd d (by simp)
    have hspec := digChar_spec d hd0
    simp only [List.map_cons, List.cons_append, readDigits, hspec.1, if_pos,
      hspec.2.1]
    exact ih _ rest (fun x hx => hd x (by simp [hx])) hr

theorem foldr_eq_ofDigits (l : List Nat) :
    l.foldr (fun d acc => acc * 10 + d) 0 = Nat.ofDigits 10 l := by
  induction l with
  | nil => simp [Nat.ofDigits]
  | cons d l ih => simp [Nat.ofDigits, ih]; ring

theorem foldl_digits_rev (n : Nat) :
    (Nat.digits 10 n).reverse.foldl (fun a d => a * 10 + d) 0 = n := by
  rw [List.foldl_reverse]
  have := foldr_eq_ofDigits (Nat.digits 10 n)
  simpa [this] using Nat.ofDigits_digits 10 n

theorem natDigitsRev_eq_digits : ∀ (fuel n : Nat), n ≤ fuel →
    natDigitsRev fuel n = Nat.digits 10 n
| fuel, 0, _ => by cases fuel <;> simp [natDigitsRev]
| 0, n + 1, h => absurd h (by omega)
| fuel + 1, n + 1, h => by
  have hdiv : (n + 1) / 10 ≤ fuel := by
    have := Nat.div_lt_self (Nat.succ_pos n) (by norm_num : 1 < 10)
    omega
  rw [natDigitsRev, if_neg (Nat.succ_ne_zero n),
    natDigitsRev_eq_digits fuel ((n + 1) / 10) hdiv]
  exact (Nat.digits_def' (by norm_num) (Nat.succ_pos n)).symm

theorem natChars_read (n : Nat) (rest : List Char) (hr : digStart rest = false) :
    ∃ (d0 : Nat) (tl : List Nat),
    natChars n = digChar d0 :: tl.map digChar ∧ d0 < 10 ∧
    readDigits (digVal (digChar d0)) (tl.map digChar ++ rest) = (n, rest) := by
  by_cases h0 : n = 0
  · refine ⟨0, [], ?_, by omega, ?_⟩
    · simp [natChars, h0, digChar]
    · have hspec := digChar_spec 0 (by omega)
      rw [hspec.2.1]
      match rest with
      | [] => simp [readDigits, h0]
      | c :: t =>
        simp only [digStart] at hr
        simp [readDigits, hr, h0]
  · have hbr : natDigitsRev n n = Nat.digits 10 n := natDigitsRev_eq_digits n n le_rfl
    have hne : Nat.digits 10 n ≠ [] := Nat.digits_ne_nil_iff_ne_zero.mpr h0
    have hne2 : (Nat.digits 10 n).reverse ≠ [] := by simpa using hne
    obtain ⟨d0, tl, htl⟩ := List.exists_cons_of_ne_nil hne2
    have hmem : ∀ d ∈ (Nat.digits 10 n).reverse, d < 10 := by
      intro d hd
      exact Nat.digits_lt_base (by omega) (List.mem_reverse.mp hd)
    have hd0 : d0 < 10 := hmem d0 (by simp [htl])
    have htlmem : ∀ d ∈ tl, d < 10 := fun d hd => hmem d (by simp [htl, hd])
    refine ⟨d0, tl, ?_, hd0, ?_⟩
    · simp [natChars, h0, hbr, htl]
    · rw [(digChar_spec d0 hd0).2.1, readDigits_append tl d0 rest htlmem hr]
      have hfold : tl.foldl (fun a d => a * 10 + d) d0 = n := by
        have h1 : (Nat.digits 10 n).reverse.foldl (fun a d => a * 10 + d) 0 = n :=
          foldl_digits_rev n
        rw [htl] at h1
        simpa using h1
      rw [hfold]

theorem readStr_quote (rest : List Char) : readStr ('\"' :: rest) = some ([], rest) := by
  rw [readStr.eq_def]
  simp

theorem readStr_esc (c : Char) (rest : List Char) :
    readStr ('\\' :: c :: rest) = (readStr rest).map (fun p => (c :: p.1, p.2)) := by
  rw [readStr.eq_def]
  simp

theorem readStr_other (c : Char) (rest : List Char) (h1 : c ≠ '\\') (h2 : c ≠ '\"') :
    readStr (c :: rest) = (readStr rest).map (fun p => (c :: p.1, p.2)) := by
  rw [readStr.eq_def]
  simp [h1, h2]

theorem readStr_escBody (s : List Char) :
    ∀ rest : List Char, readStr (escBody s ++ '\"' :: rest) = some (s, rest) := by
  induction s with
  | nil => intro rest; simp [escBody, readStr_quote]
  | cons c s ih =>
    intro rest
    by_cases hc : c = '\"' ∨ c = '\\'
    · have hesc : escBody (c :: s) = '\\' :: c :: escBody s := by
        simp [escBody, escChar, hc]
      rw [hesc]
      simp [readStr_esc, ih rest]
    · have hesc : escBody (c :: s) = c :: escBody s := by
        simp [escBody, escChar, hc]
      rw [hesc]
      push_neg at hc
      simp [readStr_other _ _ hc.2 hc.1, ih rest]

theorem sizeJ_pos (v : JVal) : 1 ≤ sizeJ v := by
  cases v <;> simp [sizeJ]

theorem digStart_cons (c : Char) (t : List Char) : digStart (c :: t) = c.isDigit := rfl

theorem stringify_shape (v : JVal) :
    ∃ (c : Char) (t : List Char), stringify v = c :: t ∧ c ≠ ']' ∧ c ≠ '\x7d' := by
  cases v with
  | jnull => exact ⟨'n', ['u', 'l', 'l'], by simp [stringify], by decide, by decide⟩
  | jbool b =>
    cases b with
    | true => exact ⟨'t', ['r', 'u', 'e'], by simp [stringify], by decide, by decide⟩
    | false =>
      exact ⟨'f', ['a', 'l', 's', 'e'], by simp [stringify], by decide, by decide⟩
  | jnum n =>
    rcases lt_or_ge n 0 with hn | hn
    · exact ⟨'-', natChars n.natAbs, by simp [stringify, hn], by decide, by decide⟩
    · obtain ⟨d0, tl, hnat, hd0, _⟩ := natChars_read n.toNat [] (by simp [digStart])
      obtain ⟨_, _, _, _, _, _, _, _, _, hrb, hcb⟩ := digChar_spec d0 hd0
      refine ⟨digChar d0, tl.map digChar, ?_, hrb, hcb⟩
      rw [show stringify (.jnum n) = natChars n.toNat from by
        simp [stringify, not_lt.mpr hn], hnat]
  | jstr s =>
    exact ⟨'\"', escBody s ++ ['\"'], by simp [stringify, strLit], by decide, by decide⟩
  | jarr a =>
    exact ⟨'[', stringifyArr a ++ [']'], by simp [stringify], by decide, by decide⟩
  | jobj o =>
    exact ⟨'\x7b', stringifyObj o ++ ['\x7d'], by simp [stringify], by decide, by decide⟩

mutual
theorem readVal_stringify : ∀ (v : JVal) (fuel : Nat) (rest : List Char),
    sizeJ v ≤ fuel → digStart rest = false →
    readVal fuel (stringify v ++ rest) = some (v, rest)
| v, 0, _, hf, _ => absurd hf (by have := sizeJ_pos v; omega)
| .jnull, fuel + 1, rest, _, _ => by simp [stringify, readVal]
| .jbool true, fuel + 1, rest, _, _ => by simp [stringify, readVal]
| .jbool false, fuel + 1, rest, _, _ => by simp [stringify, readVal]
| .jnum n, fuel + 1, rest, _, hr => by
  rcases lt_or_ge n 0 with hn | hn
  · obtain ⟨d0, tl, hnat, hd0, hread⟩ := natChars_read n.natAbs rest hr
    obtain ⟨hdig, _, _, _, _, _, _, _, _, _, _⟩ := digChar_spec d0 hd0
    rw [show stringify (.jnum n) = '-' :: natChars n.natAbs from by
      simp [stringify, hn], hnat]
    have habs : ((n.natAbs : Int)) = -n := Int.ofNat_natAbs_of_nonpos (le_of_lt hn)
    simp [readVal, hdig, hread, habs]
  · obtain ⟨d0, tl, hnat, hd0, hread⟩ := natChars_read n.toNat rest hr
    obtain ⟨hdig, _, h3, h4, h5, h6, h7, h8, h9, _, _⟩ := digChar_spec d0 hd0
    rw [show stringify (.jnum n) = natChars n.toNat from by
      simp [stringify, not_lt.mpr hn], hnat]
    have htn : ((n.toNat : Int)) = n := Int.toNat_of_nonneg hn
    simp [readVal, hdig, h3, h4, h5, h6, h7, h8, h9, hread, htn]
| .jstr s, fuel + 1, rest, _, _ => by
  have hIn : stringify (.jstr s) ++ rest = '\"' :: (escBody s ++ '\"' :: rest) := by
    simp [stringify, strLit]
  rw [hIn]
  simp [readVal, readStr_escBody]
| .jarr .anil, fuel + 1, rest, _, _ => by simp [stringify, stringifyArr, readVal]
| .jarr (.acons v r), fuel + 1, rest, hf, _ => by
  obtain ⟨c, t, hct, hc1, _⟩ := stringify_shape v
  have harr : ∃ X, stringifyArr (.acons v r) = c :: X := by
    cases r <;> simp [stringifyArr, hct]
  obtain ⟨X, hX⟩ := harr
  have hIn : stringify (.jarr (.acons v r)) ++ rest = '[' :: c :: (X ++ ']' :: rest) := by
    simp [stringify, hX]
  rw [hIn]
  simp [readVal]
  split
  · rename_i heq
    injection heq with h1 _
    exact absurd h1 hc1
  · have hc3 : c :: (X ++ ']' :: rest) = stringifyArr (.acons v r) ++ ']' :: rest := by
      simp [hX]
    rw [hc3, readItems_stringify (.acons v r) fuel rest
      (by simp only [sizeJ] at hf; omega) (by simp)]
    rfl
| .jobj .onil, fuel + 1, rest, _, _ => by simp [stringify, stringifyObj, readVal]
| .jobj (.ocons k v r), fuel + 1, rest, hf, _ => by
  have hobj : ∃ X, stringifyObj (.ocons k v r) = '\"' :: X := by
    cases r <;> simp [stringifyObj, strLit]
  obtain ⟨X, hX⟩ := hobj
  have hIn : stringify (.jobj (.ocons k v r)) ++ rest
      = '\x7b' :: '\"' :: (X ++ '\x7d' :: rest) := by
    simp [stringify, hX]
  rw [hIn]
  simp [readVal]
  have hc3 : '\"' :: (X ++ '\x7d' :: rest) = stringifyObj (.ocons k v r) ++ '\x7d' :: rest := by
    simp [hX]
  rw [hc3]
  exact readFields_stringify (.ocons k v r) fuel rest
    (by simp only [sizeJ] at hf; omega) (by simp)
theorem readItems_stringify : ∀ (a : JArr) (fuel : Nat) (rest : List Char),
    sizeA a ≤ fuel → a ≠ .anil →
    readItems fuel (stringifyArr a ++ ']' :: rest) = some (a, rest)
| .anil, _, _, _, hne => absurd rfl hne
| .acons v r, 0, _, hf, _ =>
  absurd hf (by have := sizeJ_pos v; simp only [sizeA]; omega)
| .acons v .anil, fuel + 1, rest, hf, _ => by
  have h1 : sizeJ v ≤ fuel := by simp [sizeA] at hf; omega
  have hv := readVal_stringify v fuel (']' :: rest) h1 (by rw [digStart_cons]; decide)
  simp [stringifyArr, readItems, hv]
| .acons v (.acons w r), fuel + 1, rest, hf, _ => by
  have hp := sizeJ_pos v
  have h1 : sizeJ v ≤ fuel := by simp [sizeA] at hf; omega
  have h2 : sizeA (.acons w r) ≤ fuel := by simp [sizeA] at hf ⊢; omega
  have hv := readVal_stringify v fuel (',' :: (stringifyArr (.acons w r) ++ ']' :: rest))
    h1 (by rw [digStart_cons]; decide)
  have hi := readItems_stringify (.acons w r) fuel rest h2 (by simp)
  have hIn : stringifyArr (.acons v (.acons w r)) ++ ']' :: rest
      = stringify v ++ ',' :: (stringifyArr (.acons w r) ++ ']' :: rest) := by
    simp [stringifyArr]
  rw [hIn]
  simp [readItems, hv, hi]
theorem readFields_stringify : ∀ (o : JObj) (fuel : Nat) (rest : List Char),
    sizeO o ≤ fuel → o ≠ .onil →
    readFields fuel (stringifyObj o ++ '\x7d' :: rest) = some (o, rest)
| .onil, _, _, _, hne => absurd rfl hne
| .ocons k v r, 0, _, hf, _ =>
  absurd hf (by have := sizeJ_pos v; simp only [sizeO]; omega)
| .ocons k v .onil, fuel + 1, rest, hf, _ => by
  have h1 : sizeJ v ≤ fuel := by simp [sizeO] at hf; omega
  have hv := readVal_stringify v fuel ('\x7d' :: rest) h1 (by rw [digStart_cons]; decide)
  have hIn : stringifyObj (.ocons k v .onil) ++ '\x7d' :: rest
      = '\"' :: (escBody k ++ '\"' :: (':' :: (stringify v ++ '\x7d' :: rest))) := by
    simp [stringifyObj, strLit]
  rw [hIn]
  simp [readFields, readStr_escBody, hv]
| .ocons k v (.ocons k2 w r), fuel + 1, rest, hf, _ => by
  have hp := sizeJ_pos v
  have h1 : sizeJ v ≤ fuel := by simp [sizeO] at hf; omega
  have h2 : sizeO (.ocons k2 w r) ≤ fuel := by simp [sizeO] at hf ⊢; omega
  have hv := readVal_stringify v fuel
    (',' :: (stringifyObj (.ocons k2 w r) ++ '\x7d' :: rest)) h1
    (by rw [digStart_cons]; decide)
  have hi := readFields_stringify (.ocons k2 w r) fuel rest h2 (by simp)
  have hIn : stringifyObj (.ocons k v (.ocons k2 w r)) ++ '\x7d' :: rest
      = '\"' :: (escBody k ++ '\"' :: (':' :: (stringify v ++
        ',' :: (stringifyObj (.ocons k2 w r) ++ '\x7d' :: rest)))) := by
    simp [stringifyObj, strLit]
  rw [hIn]
  simp [readFields, readStr_escBody, hv, hi]
end

mutual
theorem sizeJ_le_length : ∀ (v : JVal), sizeJ v ≤ (stringify v).length
| .jnull => by simp [sizeJ, stringify]
| .jbool true => by simp [sizeJ, stringify]
| .jbool false => by simp [sizeJ, stringify]
| .jnum n => by
  obtain ⟨c, t, hct, _, _⟩ := stringify_shape (.jnum n)
  simp [sizeJ, hct]
| .jstr s => by simp [sizeJ, stringify, strLit]
| .jarr a => by
  have := sizeA_le_length a
  simp only [sizeJ, stringify, List.length_cons, List.length_append,
    List.length_singleton]
  omega
| .jobj o => by
  have := sizeO_le_length o
  simp only [sizeJ, stringify, List.length_cons, List.length_append,
    List.length_singleton]
  omega
theorem sizeA_le_length : ∀ (a : JArr), sizeA a ≤ (stringifyArr a).length + 1
| .anil => by simp [sizeA, stringifyArr]
| .acons v .anil => by
  have := sizeJ_le_length v
  simp only [sizeA, stringifyArr]
  omega
| .acons v (.acons w r) => by
  have h1 := sizeJ_le_length v
  have h2 := sizeA_le_length (.acons w r)
  simp only [sizeA, stringifyArr, List.length_append, List.length_cons]
  simp only [sizeA] at h2
  omega
theorem sizeO_le_length : ∀ (o : JObj), sizeO o ≤ (stringifyObj o).length + 1
| .onil => by simp [sizeO, stringifyObj]
| .ocons k v .onil => by
  have := sizeJ_le_length v
  simp only [sizeO, stringifyObj, List.length_append, List.length_cons]
  omega
| .ocons k v (.ocons k2 w r) => by
  have h1 := sizeJ_le_length v
  have h2 := sizeO_le_length (.ocons k2 w r)
  simp only [sizeO, stringifyObj, List.length_append, List.length_cons]
  simp only [sizeO] at h2
  omega
end

theorem jsonParse_stringify (v : JVal) : jsonParse (stringify v) = some v := by
  have h := readVal_stringify v ((stringify v).length + 1) []
    (by have := sizeJ_le_length v; omega) (by simp [digStart])
  rw [List.append_nil] at h
  simp [jsonParse, h]

theorem errcode_vals (err : Option JsError) (c : Nat) (h : errcode err = some c) :
    c = 404 ∨ c = 403 := by
  cases err with
  | none => simp [errcode] at h
  | some e =>
    simp only [errcode] at h
    split_ifs at h <;> simp_all

theorem decode_E404 :
    decode ('E' :: natChars 404) = .ok (.errVal ⟨some 404, some 404, true, []⟩) := rfl

theorem decode_E403 :
    decode ('E' :: natChars 403) = .ok (.errVal ⟨some 403, some 403, true, []⟩) := rfl

theorem decode_O (j : JVal) : decode ('O' :: stringify j) = .ok (.objVal j) := by
  simp [decode, jsonParse_stringify j]

theorem decode_S (s : List Char) : decode ('S' :: s) = .ok (.strVal s) := by
  simp [decode]

theorem decode_B (b : List Char) : decode ('B' :: b) = .ok (.bufVal b) := by
  simp [decode]

/-- C2 (amended): for representable outcomes, with a nonempty text payload
in the text case, decoding the stored encoding reproduces the outcome. -/
theorem C2_codec_roundtrip (err : Option JsError) (p : Payload)
    (h : representableUp err p) :
    codecRT err p = some (outcomeOfUp err p) := by
  rcases h with hcode | ⟨hnone, hp⟩
  · obtain ⟨c, hc⟩ := Option.isSome_iff_exists.mp hcode
    have h44 := errcode_vals err c hc
    rcases h44 with h4 | h4 <;> subst h4
    · have henc : encode err p = .ok (some (.str ('E' :: natChars 404))) := by
        simp [encode, hc]
      have hout : outcomeOfUp err p = .notFound := by simp [outcomeOfUp, hc]
      rw [hout]
      simp [codecRT, henc, encBytes, decode_E404, outcomeOfDec, errcode]
    · have henc : encode err p = .ok (some (.str ('E' :: natChars 403))) := by
        simp [encode, hc]
      have hout : outcomeOfUp err p = .forbidden := by simp [outcomeOfUp, hc]
      rw [hout]
      simp [codecRT, henc, encBytes, decode_E403, outcomeOfDec, errcode]
  · subst hnone
    cases p with
    | parr a =>
      simp [codecRT, encode, errcode, encBytes, decode_O, outcomeOfDec, outcomeOfUp]
    | pobj o =>
      simp [codecRT, encode, errcode, encBytes, decode_O, outcomeOfDec, outcomeOfUp]
    | pstr s =>
      simp only at hp
      simp [codecRT, encode, errcode, hp, encBytes, decode_S, outcomeOfDec,
        outcomeOfUp]
    | pbuf b =>
      simp [codecRT, encode, errcode, encBytes, decode_B, outcomeOfDec, outcomeOfUp]
    | pabsent => simp at hp

/-- C2 witness: a structured object payload round-trips through the codec. -/
theorem C2_codec_roundtrip_witness :
    codecRT none (.pobj (.ocons ['a'] (.jnum 12) .onil))
      = some (.ok (.pobj (.ocons ['a'] (.jnum 12) .onil))) :=
  C2_codec_roundtrip none (.pobj (.ocons ['a'] (.jnum 12) .onil))
    (Or.inr ⟨rfl, trivial⟩)

/-- C2 counterexample: the empty text payload is an Ok text outcome, yet
encode throws on it (the empty string is falsy and reaches Buffer.concat),
so the round trip produces nothing instead of the outcome. -/
theorem C2_codec_roundtrip_cx :
    codecRT none (.pstr []) = none ∧
    some (outcomeOfUp none (.pstr [])) ≠ (none : Option Outcome) := by
  constructor
  · rfl
  · simp

/-- C10 (amended): an Ok outcome with a binary payload, including the
empty Buffer, encodes to the tag B followed by the raw bytes; an absent
payload instead makes encode throw (see the counterexample). -/
theorem C10_encode_binary_total (b : List Char) :
    encode none (.pbuf b) = .ok (some (.buf ('B' :: b))) := rfl

/-- C10 counterexample: an Ok outcome with an absent payload (err and
buffer both null) makes encode throw a TypeError at Buffer.concat instead
of returning a B entry. -/
theorem C10_encode_binary_total_cx : encode none .pabsent = .error () := rfl

/-- C7: an upstream failure not classified as 404 or 403 encodes to null,
and neither strategy ever issues a setex for such an outcome, for every
store reply and completion order. -/
theorem C7_no_write_for_opaque_failure (cfg : Cfg) (url : Url) (u : UpResult)
    (reply : StoreReply) (ord : Order) (e : JsError)
    (h1 : u.err = some e) (h2 : errcode (some e) = none) :
    encode u.err u.buffer = .ok none ∧
    (raceExec cfg url u reply ord).writes = [] ∧
    (readthroughExec cfg url reply u).writes = [] := by
  have henc : encode u.err u.buffer = .ok none := by
    rw [h1]
    simp [encode, h2]
  refine ⟨henc, ?_, ?_⟩
  · unfold raceExec
    by_cases hq : cfg.queueLen < cfg.highWater
    · simp only [if_pos hq]
      cases ord with
      | upFirst =>
        cases reply with
        | err => simp [upstreamStep, henc, storeStep]
        | val eo =>
          cases eo with
          | none => simp [upstreamStep, henc, storeStep]
          | some b => simp [upstreamStep, henc, storeStep]
      | storeFirst =>
        cases reply with
        | err => simp [upstreamStep, henc, storeStep]
        | val eo =>
          cases eo with
          | none => simp [upstreamStep, henc, storeStep]
          | some b =>
            cases hdec : decode b with
            | error u2 => simp [upstreamStep, henc, storeStep, hdec]
            | ok d =>
              by_cases ht : d.truthy
              · cases d <;> simp [upstreamStep, henc, storeStep, hdec, ht]
              · simp [upstreamStep, henc, storeStep, hdec, ht]
    · simp only [if_neg hq]
      simp [upstreamStep, henc]
  · unfold readthroughExec
    by_cases hq : cfg.queueLen < cfg.highWater
    · simp only [if_pos hq]
      cases reply with
      | err => simp
      | val eo =>
        cases eo with
        | none => simp [readthroughMiss, h1, h2]
        | some b =>
          cases hdec : decode b with
          | error u2 => simp [hdec, readthroughMiss, h1, h2]
          | ok d =>
            by_cases ht : d.truthy
            · cases d <;> simp [hdec, ht, readthroughMiss, h1, h2]
            · simp [hdec, ht, readthroughMiss, h1, h2]
    · simp only [if_neg hq]

/-- C7 witness: a concrete opaque failure produces no writes in either
strategy and encodes to null. -/
theorem C7_no_write_for_opaque_failure_witness :
    encode (some ⟨none, some 500, false, ['b']⟩) .pabsent = .ok none ∧
    (raceExec ⟨['T', 'L'], .num 300, 0, 10⟩ ⟨['u'], ['h']⟩
      ⟨some ⟨none, some 500, false, ['b']⟩, .pabsent, none⟩
      (.val (some ['S', 'h'])) .storeFirst).writes = [] ∧
    (readthroughExec ⟨['T', 'L'], .num 300, 0, 10⟩ ⟨['u'], ['h']⟩
      (.val (some ['S', 'h']))
      ⟨some ⟨none, some 500, false, ['b']⟩, .pabsent, none⟩).writes = [] :=
  C7_no_write_for_opaque_failure ⟨['T', 'L'], .num 300, 0, 10⟩ ⟨['u'], ['h']⟩
    ⟨some ⟨none, some 500, false, ['b']⟩, .pabsent, none⟩
    (.val (some ['S', 'h'])) .storeFirst ⟨none, some 500, false, ['b']⟩ rfl rfl

/-- C8: when the redis get itself fails, readthrough surfaces a
diagnostic tagged with the key, passes the upstream result through to the
caller, and issues no setex; by contrast a plain miss with an encodable
outcome does write the encoding under the key with the resolved expiry. -/
theorem C8_readthrough_store_error (cfg : Cfg) (url : Url) (u : UpResult)
    (hq : cfg.queueLen < cfg.highWater) :
    (readthroughExec cfg url .err u).deliveries = [upstreamDelivery u] ∧
    (readthroughExec cfg url .err u).writes = [] ∧
    (readthroughExec cfg url .err u).diags = [.storeErr (cacheKey cfg url)] ∧
    (∀ enc : EncVal, encode u.err u.buffer = .ok (some enc) →
      (readthroughExec cfg url (.val none) u).writes
        = [⟨cacheKey cfg url, resolveExpires cfg url, some enc⟩]) := by
  refine ⟨?_, ?_, ?_, ?_⟩
  · unfold readthroughExec
    simp [if_pos hq, upstreamDelivery]
  · unfold readthroughExec
    simp [if_pos hq]
  · unfold readthroughExec
    simp [if_pos hq]
  · intro enc henc
    unfold readthroughExec
    simp only [if_pos hq]
    cases hu : u.err with
    | none =>
      rw [hu] at henc
      simp [readthroughMiss, hu, henc]
    | some e =>
      rw [hu] at henc
      cases hec : errcode (some e) with
      | none =>
        rw [show encode (some e) u.buffer = .ok none from by simp [encode, hec]]
          at henc
        simp at henc
      | some c =>
        simp [readthroughMiss, hu, hec, henc]

/-- C8 witness: concrete store-error invocation delivers the upstream
buffer, writes nothing, and tags the diagnostic; the matching plain miss
writes the encoding. -/
theorem C8_readthrough_store_error_witness :
    (readthroughExec ⟨['T', 'L'], .num 300, 0, 10⟩ ⟨['u'], ['h']⟩ .err
      ⟨none, .pbuf ['h'], some 7⟩).deliveries
      = [upstreamDelivery ⟨none, .pbuf ['h'], some 7⟩] ∧
    (readthroughExec ⟨['T', 'L'], .num 300, 0, 10⟩ ⟨['u'], ['h']⟩ .err
      ⟨none, .pbuf ['h'], some 7⟩).writes = [] ∧
    (readthroughExec ⟨['T', 'L'], .num 300, 0, 10⟩ ⟨['u'], ['h']⟩ .err
      ⟨none, .pbuf ['h'], some 7⟩).diags
      = [.storeErr (cacheKey ⟨['T', 'L'], .num 300, 0, 10⟩ ⟨['u'], ['h']⟩)] ∧
    (readthroughExec ⟨['T', 'L'], .num 300, 0, 10⟩ ⟨['u'], ['h']⟩ (.val none)
      ⟨none, .pbuf ['h'], some 7⟩).writes
      = [⟨cacheKey ⟨['T', 'L'], .num 300, 0, 10⟩ ⟨['u'], ['h']⟩,
          resolveExpires ⟨['T', 'L'], .num 300, 0, 10⟩ ⟨['u'], ['h']⟩,
          some (.buf ['B', 'h'])⟩] := by
  obtain ⟨a, b, c, d⟩ := C8_readthrough_store_error ⟨['T', 'L'], .num 300, 0, 10⟩
    ⟨['u'], ['h']⟩ ⟨none, .pbuf ['h'], some 7⟩ (by decide)
  exact ⟨a, b, c, d (.buf ['B', 'h']) rfl⟩

/-- C5 (amended): only a thrown decode failure (a JSON parse error inside
an O entry) is surfaced as a diagnostic and treated as a miss in
readthrough; the invocation then behaves exactly like a plain miss apart
from the extra diagnostic.  Entries with an unrecognized tag or a
malformed E remainder are not treated as a miss (see counterexample). -/
theorem C5_readthrough_decode_throw (cfg : Cfg) (url : Url) (u : UpResult)
    (b : List Char) (hq : cfg.queueLen < cfg.highWater)
    (hdec : decode b = .error ()) :
    (readthroughExec cfg url (.val (some b)) u).deliveries
      = (readthroughExec cfg url (.val none) u).deliveries ∧
    (readthroughExec cfg url (.val (some b)) u).writes
      = (readthroughExec cfg url (.val none) u).writes ∧
    (readthroughExec cfg url (.val (some b)) u).diags
      = .decodeErr (cacheKey cfg url) :: (readthroughExec cfg url (.val none) u).diags := by
  unfold readthroughExec
  simp only [if_pos hq, hdec]
  cases hu : u.err with
  | none =>
    cases henc : encode none u.buffer with
    | error e2 => simp [readthroughMiss, hu, henc]
    | ok enc => simp [readthroughMiss, hu, henc]
  | some e =>
    cases hec : errcode (some e) with
    | none => simp [readthroughMiss, hu, hec]
    | some c =>
      cases henc : encode (some e) u.buffer with
      | error e2 => simp [readthroughMiss, hu, hec, henc]
      | ok enc => simp [readthroughMiss, hu, hec, henc]

/-- C5 witness: an O entry with unparsable JSON is diagnosed and handled
exactly like a miss, the caller receiving the upstream buffer. -/
theorem C5_readthrough_decode_throw_witness :
    (readthroughExec ⟨['T', 'L'], .num 300, 0, 10⟩ ⟨['u'], ['h']⟩
      (.val (some ['O', 'z'])) ⟨none, .pbuf ['h'], some 7⟩).deliveries
      = (readthroughExec ⟨['T', 'L'], .num 300, 0, 10⟩ ⟨['u'], ['h']⟩
        (.val none) ⟨none, .pbuf ['h'], some 7⟩).deliveries ∧
    (readthroughExec ⟨['T', 'L'], .num 300, 0, 10⟩ ⟨['u'], ['h']⟩
      (.val (some ['O', 'z'])) ⟨none, .pbuf ['h'], some 7⟩).writes
      = (readthroughExec ⟨['T', 'L'], .num 300, 0, 10⟩ ⟨['u'], ['h']⟩
        (.val none) ⟨none, .pbuf ['h'], some 7⟩).writes ∧
    (readthroughExec ⟨['T', 'L'], .num 300, 0, 10⟩ ⟨['u'], ['h']⟩
      (.val (some ['O', 'z'])) ⟨none, .pbuf ['h'], some 7⟩).diags
      = .decodeErr (cacheKey ⟨['T', 'L'], .num 300, 0, 10⟩ ⟨['u'], ['h']⟩)
        :: (readthroughExec ⟨['T', 'L'], .num 300, 0, 10⟩ ⟨['u'], ['h']⟩
          (.val none) ⟨none, .pbuf ['h'], some 7⟩).diags :=
  C5_readthrough_decode_throw ⟨['T', 'L'], .num 300, 0, 10⟩ ⟨['u'], ['h']⟩
    ⟨none, .pbuf ['h'], some 7⟩ ['O', 'z'] (by decide) rfl

/-- C5 counterexample: an entry whose leading tag byte is unrecognized
decodes (without throwing) to an Error with message Invalid cache value;
readthrough delivers that error object to the caller, emits no diagnostic,
never calls upstream, and so the caller does not receive the upstream
result. -/
theorem C5_readthrough_decode_throw_cx :
    decode ['X'] = .ok (.errVal ⟨none, none, false, invalidMsg⟩) ∧
    (readthroughExec ⟨['T', 'L'], .num 300, 0, 10⟩ ⟨['u'], ['h']⟩
      (.val (some ['X'])) ⟨none, .pbuf ['h'], some 7⟩).deliveries
      = [⟨some ⟨none, none, false, invalidMsg⟩, .vundefined, none⟩] ∧
    (readthroughExec ⟨['T', 'L'], .num 300, 0, 10⟩ ⟨['u'], ['h']⟩
      (.val (some ['X'])) ⟨none, .pbuf ['h'], some 7⟩).diags = [] ∧
    (⟨some ⟨none, none, false, invalidMsg⟩, .vundefined, none⟩ : Delivery)
      ≠ upstreamDelivery ⟨none, .pbuf ['h'], some 7⟩ := by
  refine ⟨rfl, rfl, rfl, ?_⟩
  simp [upstreamDelivery, payloadJs]

/-- C6 (amended): when the command queue is at or above the high water
mark, neither strategy issues a redis get or setex, both emit exactly the
high water diagnostic, readthrough always hands the caller the upstream
result, and race does so provided the upstream outcome is encodable
(otherwise encode throws before the callback, see counterexample). -/
theorem C6_backpressure_guard (cfg : Cfg) (url : Url) (u : UpResult)
    (reply : StoreReply) (ord : Order) (hq : cfg.highWater ≤ cfg.queueLen) :
    (readthroughExec cfg url reply u).gets = [] ∧
    (readthroughExec cfg url reply u).writes = [] ∧
    (readthroughExec cfg url reply u).diags = [.highwater] ∧
    (readthroughExec cfg url reply u).deliveries = [upstreamDelivery u] ∧
    (raceExec cfg url u reply ord).gets = [] ∧
    (raceExec cfg url u reply ord).writes = [] ∧
    (raceExec cfg url u reply ord).diags = [.highwater] ∧
    (∀ enc : Option EncVal, encode u.err u.buffer = .ok enc →
      (raceExec cfg url u reply ord).deliveries = [upstreamDelivery u]) := by
  have hlt : ¬(cfg.queueLen < cfg.highWater) := by omega
  refine ⟨?_, ?_, ?_, ?_, ?_, ?_, ?_, ?_⟩
  · unfold readthroughExec
    simp [if_neg hlt]
  · unfold readthroughExec
    simp [if_neg hlt]
  · unfold readthroughExec
    simp [if_neg hlt]
  · unfold readthroughExec
    simp [if_neg hlt, upstreamDelivery]
  · unfold raceExec
    cases henc : encode u.err u.buffer with
    | error e2 => simp [if_neg hlt, upstreamStep, henc]
    | ok enc => simp [if_neg hlt, upstreamStep, henc]
  · unfold raceExec
    cases henc : encode u.err u.buffer with
    | error e2 => simp [if_neg hlt, upstreamStep, henc]
    | ok enc => simp [if_neg hlt, upstreamStep, henc]
  · unfold raceExec
    cases henc : encode u.err u.buffer with
    | error e2 => simp [if_neg hlt, upstreamStep, henc]
    | ok enc => simp [if_neg hlt, upstreamStep, henc]
  · intro enc henc
    unfold raceExec
    simp [if_neg hlt, upstreamStep, henc, upstreamDelivery]

/-- C6 witness: a saturated queue with an encodable upstream outcome
bypasses the store in both strategies and still answers the caller. -/
theorem C6_backpressure_guard_witness :
    (readthroughExec ⟨['T', 'L'], .num 300, 10, 10⟩ ⟨['u'], ['h']⟩
      (.val (some ['S', 'h'])) ⟨none, .pbuf ['x'], some 5⟩).deliveries
      = [upstreamDelivery ⟨none, .pbuf ['x'], some 5⟩] ∧
    (raceExec ⟨['T', 'L'], .num 300, 10, 10⟩ ⟨['u'], ['h']⟩
      ⟨none, .pbuf ['x'], some 5⟩ (.val (some ['S', 'h'])) .upFirst).gets = [] ∧
    (raceExec ⟨['T', 'L'], .num 300, 10, 10⟩ ⟨['u'], ['h']⟩
      ⟨none, .pbuf ['x'], some 5⟩ (.val (some ['S', 'h'])) .upFirst).deliveries
      = [upstreamDelivery ⟨none, .pbuf ['x'], some 5⟩] := by
  obtain ⟨_, _, _, h4, h5, _, _, h8⟩ := C6_backpressure_guard
    ⟨['T', 'L'], .num 300, 10, 10⟩ ⟨['u'], ['h']⟩ ⟨none, .pbuf ['x'], some 5⟩
    (.val (some ['S', 'h'])) .upFirst (by decide)
  exact ⟨h4, h5, h8 (some (.buf ['B', 'x'])) rfl⟩

/-- C6 counterexample: in race mode with a saturated queue and an
upstream success whose payload is absent, encode throws inside the
upstream callback before the sent flag is set, so the caller never
receives any result, although the claim promises the upstream result. -/
theorem C6_backpressure_guard_cx :
    (raceExec ⟨['T', 'L'], .num 300, 10, 10⟩ ⟨['u'], ['h']⟩
      ⟨none, .pabsent, none⟩ (.val none) .upFirst).deliveries = [] ∧
    (raceExec ⟨['T', 'L'], .num 300, 10, 10⟩ ⟨['u'], ['h']⟩
      ⟨none, .pabsent, none⟩ (.val none) .upFirst).crashed = true :=
  ⟨rfl, rfl⟩

/-- C3 (amended): a race invocation delivers to the caller exactly once,
for every store reply (error, miss, entry, decode failure) and either
completion order, provided the upstream outcome is encodable; when encode
throws (absent or empty-string payload) the upstream callback dies before
the callback and delivery can be lost entirely (see counterexample). -/
theorem C3_race_exactly_once (cfg : Cfg) (url : Url) (u : UpResult)
    (reply : StoreReply) (ord : Order) (enc : Option EncVal)
    (henc : encode u.err u.buffer = .ok enc) :
    ((raceExec cfg url u reply ord).deliveries).length = 1 := by
  unfold raceExec
  by_cases hq : cfg.queueLen < cfg.highWater
  · simp only [if_pos hq]
    cases ord with
    | upFirst =>
      cases reply with
      | err => simp [upstreamStep, henc, storeStep]
      | val eo =>
        cases eo with
        | none => simp [upstreamStep, henc, storeStep]
        | some b => simp [upstreamStep, henc, storeStep]
    | storeFirst =>
      cases reply with
      | err => simp [upstreamStep, henc, storeStep]
      | val eo =>
        cases eo with
        | none => simp [upstreamStep, henc, storeStep]
        | some b =>
          cases hdec : decode b with
          | error e2 => simp [upstreamStep, henc, storeStep, hdec]
          | ok d =>
            by_cases ht : d.truthy
            · cases d <;> simp [upstreamStep, henc, storeStep, hdec, ht]
            · simp [upstreamStep, henc, storeStep, hdec, ht]
  · simp [if_neg hq, upstreamStep, henc]

/-- C3 witness: a concrete race invocation with a store miss delivers
exactly once. -/
theorem C3_race_exactly_once_witness :
    ((raceExec ⟨['T', 'L'], .num 300, 0, 10⟩ ⟨['u'], ['h']⟩
      ⟨none, .pbuf ['x'], some 5⟩ (.val none) .storeFirst).deliveries).length = 1 :=
  C3_race_exactly_once ⟨['T', 'L'], .num 300, 0, 10⟩ ⟨['u'], ['h']⟩
    ⟨none, .pbuf ['x'], some 5⟩ (.val none) .storeFirst
    (some (.buf ['B', 'x'])) rfl

/-- C3 counterexample: the upstream fetch completes with an Ok outcome
whose payload is the empty string; encode throws inside the race upstream
callback before the callback is invoked, the process dies, and the caller
is never called at all: zero deliveries, not exactly one. -/
theorem C3_race_exactly_once_cx :
    ((raceExec ⟨['T', 'L'], .num 300, 0, 10⟩ ⟨['u'], ['h']⟩
      ⟨none, .pstr [], none⟩ (.val none) .upFirst).deliveries).length = 0 ∧
    (raceExec ⟨['T', 'L'], .num 300, 0, 10⟩ ⟨['u'], ['h']⟩
      ⟨none, .pstr [], none⟩ (.val none) .upFirst).crashed = true :=
  ⟨rfl, rfl⟩

/-- C1 (amended): in race mode, if the store entry arrives first and
decodes without throwing to a JS-truthy value, the caller receives that
decoded value; if the upstream resolves first and its outcome is
encodable, the caller receives the upstream result whatever the store
later replies.  A decode to a falsy value (for example the empty string)
is not delivered even though decoding succeeded (see counterexample). -/
theorem C1_race_delivery (cfg : Cfg) (url : Url) (u : UpResult)
    (reply : StoreReply) (hq : cfg.queueLen < cfg.highWater) :
    (∀ (b : List Char) (d : Decoded), reply = .val (some b) → decode b = .ok d →
      d.truthy = true →
      (raceExec cfg url u reply .storeFirst).deliveries = [storeDelivery d]) ∧
    (∀ enc : Option EncVal, encode u.err u.buffer = .ok enc →
      (raceExec cfg url u reply .upFirst).deliveries = [upstreamDelivery u]) := by
  constructor
  · intro b d hb hdec ht
    subst hb
    unfold raceExec
    simp only [if_pos hq]
    cases henc : encode u.err u.buffer with
    | error e2 =>
      cases d <;> simp [upstreamStep, storeStep, hdec, ht, henc, storeDelivery]
    | ok enc =>
      cases d <;> simp [upstreamStep, storeStep, hdec, ht, henc, storeDelivery]
  · intro enc henc
    unfold raceExec
    simp only [if_pos hq]
    cases reply with
    | err => simp [upstreamStep, storeStep, henc, upstreamDelivery]
    | val eo =>
      cases eo with
      | none => simp [upstreamStep, storeStep, henc, upstreamDelivery]
      | some b => simp [upstreamStep, storeStep, henc, upstreamDelivery]

/-- C1 witness: a store entry decoding to a nonempty string wins when the
store is first, and the upstream buffer wins when upstream is first. -/
theorem C1_race_delivery_witness :
    (raceExec ⟨['T', 'L'], .num 300, 0, 10⟩ ⟨['u'], ['h']⟩
      ⟨none, .pbuf ['x'], some 5⟩ (.val (some ['S', 'h'])) .storeFirst).deliveries
      = [storeDelivery (.strVal ['h'])] ∧
    (raceExec ⟨['T', 'L'], .num 300, 0, 10⟩ ⟨['u'], ['h']⟩
      ⟨none, .pbuf ['x'], some 5⟩ (.val (some ['S', 'h'])) .upFirst).deliveries
      = [upstreamDelivery ⟨none, .pbuf ['x'], some 5⟩] := by
  obtain ⟨h1, h2⟩ := C1_race_delivery ⟨['T', 'L'], .num 300, 0, 10⟩ ⟨['u'], ['h']⟩
    ⟨none, .pbuf ['x'], some 5⟩ (.val (some ['S', 'h'])) (by decide)
  exact ⟨h1 ['S', 'h'] (.strVal ['h']) rfl rfl rfl, h2 (some (.buf ['B', 'x'])) rfl⟩

/-- C1 counterexample: the entry consisting of the single tag byte S
decodes successfully (to the empty string) strictly before upstream
resolves, yet the caller receives the upstream value, not the decoded
cached value, because the empty string is falsy. -/
theorem C1_race_delivery_cx :
    decode ['S'] = .ok (.strVal []) ∧
    (raceExec ⟨['T', 'L'], .num 300, 0, 10⟩ ⟨['u'], ['h']⟩
      ⟨none, .pbuf ['x'], some 5⟩ (.val (some ['S'])) .storeFirst).deliveries
      = [upstreamDelivery ⟨none, .pbuf ['x'], some 5⟩] ∧
    upstreamDelivery ⟨none, .pbuf ['x'], some 5⟩ ≠ storeDelivery (.strVal []) := by
  refine ⟨rfl, rfl, ?_⟩
  simp [upstreamDelivery, storeDelivery, decodedJs, payloadJs]

theorem finalizeWrites_same (key : List Char) (exp : Nat) (v : List Char) :
    finalizeWrites key exp (.entry v) (.buf v) = [] := by
  simp [finalizeWrites, bufferEqual]

theorem finalizeWrites_diff (key : List Char) (exp : Nat) (b : List Char)
    (enc : EncVal) (h : b ≠ encBytes enc ∨ ∃ s, enc = .str s) :
    finalizeWrites key exp (.entry b) enc = [⟨key, exp, some enc⟩] := by
  cases enc with
  | str s => simp [finalizeWrites, bufferEqual]
  | buf v =>
    have hb : b ≠ v := by
      rcases h with h | ⟨s, hs⟩
      · simpa [encBytes] using h
      · exact absurd hs (by simp)
    simp [finalizeWrites, bufferEqual, hb]

theorem finalizeWrites_s500 (key : List Char) (exp : Nat) (enc : EncVal) :
    finalizeWrites key exp .s500 enc = [⟨key, exp, some enc⟩] := by
  cases enc <;> simp [finalizeWrites, bufferEqual]

theorem decode_of_encode_buf (err : Option JsError) (p : Payload) (v : List Char)
    (h : encode err p = .ok (some (.buf v))) : ∃ d : Decoded, decode v = .ok d := by
  cases herrc : errcode err with
  | some c => simp [encode, herrc] at h
  | none =>
    cases err with
    | some e => simp [encode, herrc] at h
    | none =>
      cases p with
      | parr a =>
        simp [encode, herrc] at h
        exact ⟨.objVal (.jarr a), by rw [← h]; exact decode_O (.jarr a)⟩
      | pobj o =>
        simp [encode, herrc] at h
        exact ⟨.objVal (.jobj o), by rw [← h]; exact decode_O (.jobj o)⟩
      | pstr s =>
        by_cases hs : s = []
        · simp [encode, herrc, hs] at h
        · simp [encode, herrc, hs] at h
          exact ⟨.strVal s, by rw [← h]; exact decode_S s⟩
      | pbuf bb =>
        simp [encode, herrc] at h
        exact ⟨.bufVal bb, by rw [← h]; exact decode_B bb⟩
      | pabsent => simp [encode, herrc] at h

/-- C4 (amended): in a race invocation where the store returns an entry
and the upstream outcome is encodable, (i) when the upstream encoding is
a Buffer byte-identical to the entry, no setex occurs; (ii) when the two
encodings differ as bytes, or the upstream encoding is a negative E
string (for which buffer-equal yields undefined, so the guard never
fires, see counterexample), exactly one setex writes the upstream
encoding under the key with the resolved expiry, and a subsequent store
read of the key returns the upstream encoding. -/
theorem C4_race_reconciliation (cfg : Cfg) (url : Url) (u : UpResult)
    (b : List Char) (enc : EncVal) (ord : Order)
    (hq : cfg.queueLen < cfg.highWater)
    (henc : encode u.err u.buffer = .ok (some enc)) :
    ((∃ v, enc = .buf v ∧ b = v) →
      (raceExec cfg url u (.val (some b)) ord).writes = []) ∧
    ((b ≠ encBytes enc ∨ (∃ s, enc = .str s)) →
      (raceExec cfg url u (.val (some b)) ord).writes
        = [⟨cacheKey cfg url, resolveExpires cfg url, some enc⟩] ∧
      ∀ st0 : List Char → Option (List Char),
        applyWrites (raceExec cfg url u (.val (some b)) ord).writes st0
          (cacheKey cfg url) = some (encBytes enc)) := by
  constructor
  · rintro ⟨v, henc2, hb⟩
    subst henc2
    obtain ⟨d, hd⟩ := decode_of_encode_buf u.err u.buffer v henc
    subst hb
    unfold raceExec
    simp only [if_pos hq]
    cases ord with
    | upFirst =>
      simp [upstreamStep, storeStep, henc, finalizeWrites_same]
    | storeFirst =>
      by_cases ht : d.truthy
      · cases d <;>
          simp [upstreamStep, storeStep, henc, hd, ht, finalizeWrites_same]
      · simp [upstreamStep, storeStep, henc, hd, ht, finalizeWrites_same]
  · intro hdiff
    have hw : finalizeWrites (cacheKey cfg url) (resolveExpires cfg url) (.entry b) enc
        = [⟨cacheKey cfg url, resolveExpires cfg url, some enc⟩] :=
      finalizeWrites_diff _ _ b enc hdiff
    have hw5 : finalizeWrites (cacheKey cfg url) (resolveExpires cfg url) .s500 enc
        = [⟨cacheKey cfg url, resolveExpires cfg url, some enc⟩] :=
      finalizeWrites_s500 _ _ enc
    have hmain : (raceExec cfg url u (.val (some b)) ord).writes
        = [⟨cacheKey cfg url, resolveExpires cfg url, some enc⟩] := by
      unfold raceExec
      simp only [if_pos hq]
      cases ord with
      | upFirst =>
        simp [upstreamStep, storeStep, henc, hw]
      | storeFirst =>
        cases hdec : decode b with
        | error e2 => simp [upstreamStep, storeStep, henc, hdec, hw5]
        | ok d =>
          by_cases ht : d.truthy
          · cases d <;> simp [upstreamStep, storeStep, henc, hdec, ht, hw]
          · simp [upstreamStep, storeStep, henc, hdec, ht, hw]
    refine ⟨hmain, ?_⟩
    intro st0
    rw [hmain]
    simp [applyWrites]

/-- C4 witness: both halves at concrete inputs: a byte-identical B entry
yields no write; a differing entry is superseded by the upstream
encoding, which a subsequent read then returns. -/
theorem C4_race_reconciliation_witness :
    (raceExec ⟨['T', 'L'], .num 300, 0, 10⟩ ⟨['u'], ['h']⟩
      ⟨none, .pbuf ['x'], some 5⟩ (.val (some ['B', 'x'])) .upFirst).writes = [] ∧
    (raceExec ⟨['T', 'L'], .num 300, 0, 10⟩ ⟨['u'], ['h']⟩
      ⟨none, .pbuf ['x'], some 5⟩ (.val (some ['S', 'h'])) .upFirst).writes
      = [⟨cacheKey ⟨['T', 'L'], .num 300, 0, 10⟩ ⟨['u'], ['h']⟩,
          resolveExpires ⟨['T', 'L'], .num 300, 0, 10⟩ ⟨['u'], ['h']⟩,
          some (.buf ['B', 'x'])⟩] ∧
    applyWrites (raceExec ⟨['T', 'L'], .num 300, 0, 10⟩ ⟨['u'], ['h']⟩
        ⟨none, .pbuf ['x'], some 5⟩ (.val (some ['S', 'h'])) .upFirst).writes
      (fun _ => none) (cacheKey ⟨['T', 'L'], .num 300, 0, 10⟩ ⟨['u'], ['h']⟩)
      = some (encBytes (.buf ['B', 'x'])) := by
  obtain ⟨h1, _⟩ := C4_race_reconciliation ⟨['T', 'L'], .num 300, 0, 10⟩
    ⟨['u'], ['h']⟩ ⟨none, .pbuf ['x'], some 5⟩ ['B', 'x'] (.buf ['B', 'x'])
    .upFirst (by decide) rfl
  obtain ⟨_, h2⟩ := C4_race_reconciliation ⟨['T', 'L'], .num 300, 0, 10⟩
    ⟨['u'], ['h']⟩ ⟨none, .pbuf ['x'], some 5⟩ ['S', 'h'] (.buf ['B', 'x'])
    .upFirst (by decide) rfl
  obtain ⟨h2a, h2b⟩ := h2 (Or.inl (by decide))
  exact ⟨h1 ⟨['B', 'x'], rfl, rfl⟩, h2a, h2b (fun _ => none)⟩

/-- C4 counterexample: cached entry and upstream encoding are the same
four bytes E404, yet a setex is issued, because encode returned the JS
string E404 rather than a Buffer and buffer-equal yields undefined for a
string, so the equality guard never fires. -/
theorem C4_race_reconciliation_cx :
    encode (some ⟨some 404, none, false, []⟩) .pabsent
      = .ok (some (.str ['E', '4', '0', '4'])) ∧
    encBytes (.str ['E', '4', '0', '4']) = ['E', '4', '0', '4'] ∧
    (raceExec ⟨['T', 'L'], .num 300, 0, 10⟩ ⟨['u'], ['h']⟩
      ⟨some ⟨some 404, none, false, []⟩, .pabsent, none⟩
      (.val (some ['E', '4', '0', '4'])) .upFirst).writes
      = [⟨cacheKey ⟨['T', 'L'], .num 300, 0, 10⟩ ⟨['u'], ['h']⟩, 300,
          some (.str ['E', '4', '0', '4'])⟩] :=
  ⟨rfl, rfl, rfl⟩

/-- C9 (amended): on a cache hit in either strategy (a readthrough hit,
or a race invocation whose store branch completes first with a decodable
entry) the caller receives the same success or failure classification and
the same payload value as the undecorated upstream fetch would deliver,
but never any headers (headers are not cached, see counterexample), and a
cached negative outcome is a reconstructed error carrying only the status
code. -/
theorem C9_cache_hit_transparency (cfg : Cfg) (url : Url)
    (hq : cfg.queueLen < cfg.highWater) :
    (∀ (u : UpResult) (enc : EncVal), u.err = none →
      encode none u.buffer = .ok (some enc) →
      (readthroughExec cfg url (.val (some (encBytes enc))) u).deliveries
        = [⟨none, payloadJs u.buffer, none⟩]) ∧
    (∀ (e : JsError) (c : Nat) (u2 : UpResult), errcode (some e) = some c →
      (readthroughExec cfg url (.val (some ('E' :: natChars c))) u2).deliveries
        = [⟨some ⟨some c, some c, true, []⟩, .vundefined, none⟩]) ∧
    (∀ (u : UpResult) (enc : EncVal), u.err = none →
      encode none u.buffer = .ok (some enc) →
      (raceExec cfg url u (.val (some (encBytes enc))) .storeFirst).deliveries
        = [⟨none, payloadJs u.buffer, none⟩]) ∧
    (∀ (e : JsError) (c : Nat) (u2 : UpResult), errcode (some e) = some c →
      (raceExec cfg url u2 (.val (some ('E' :: natChars c))) .storeFirst).deliveries
        = [⟨some ⟨some c, some c, true, []⟩, .vundefined, none⟩]) := by
  refine ⟨?_, ?_, ?_, ?_⟩
  · intro u enc hu henc
    cases hb : u.buffer with
    | parr a =>
      rw [hb] at henc
      simp [encode, errcode] at henc
      subst henc
      unfold readthroughExec
      simp [if_pos hq, encBytes, decode_O, Decoded.truthy, jTruthy, decodedJs,
        jToJs, payloadJs, hb]
    | pobj o =>
      rw [hb] at henc
      simp [encode, errcode] at henc
      subst henc
      unfold readthroughExec
      simp [if_pos hq, encBytes, decode_O, Decoded.truthy, jTruthy, decodedJs,
        jToJs, payloadJs, hb]
    | pstr s =>
      rw [hb] at henc
      cases s with
      | nil => simp [encode, errcode] at henc
      | cons c t =>
        simp [encode, errcode] at henc
        subst henc
        unfold readthroughExec
        simp [if_pos hq, encBytes, decode_S, Decoded.truthy, decodedJs,
          payloadJs, hb]
    | pbuf bb =>
      rw [hb] at henc
      simp [encode, errcode] at henc
      subst henc
      unfold readthroughExec
      simp [if_pos hq, encBytes, decode_B, Decoded.truthy, decodedJs,
        payloadJs, hb]
    | pabsent =>
      rw [hb] at henc
      simp [encode, errcode] at henc
  · intro e c u2 hec
    have h44 := errcode_vals (some e) c hec
    unfold readthroughExec
    rcases h44 with h4 | h4 <;> subst h4
    · simp [if_pos hq, decode_E404, Decoded.truthy]
    · simp [if_pos hq, decode_E403, Decoded.truthy]
  · intro u enc hu henc
    cases hb : u.buffer with
    | parr a =>
      rw [hb] at henc
      simp [encode, errcode] at henc
      subst henc
      unfold raceExec
      simp [if_pos hq, upstreamStep, storeStep, encBytes, decode_O,
        Decoded.truthy, jTruthy, decodedJs, jToJs, payloadJs, hb, hu,
        encode, errcode]
    | pobj o =>
      rw [hb] at henc
      simp [encode, errcode] at henc
      subst henc
      unfold raceExec
      simp [if_pos hq, upstreamStep, storeStep, encBytes, decode_O,
        Decoded.truthy, jTruthy, decodedJs, jToJs, payloadJs, hb, hu,
        encode, errcode]
    | pstr s =>
      rw [hb] at henc
      cases s with
      | nil => simp [encode, errcode] at henc
      | cons c t =>
        simp [encode, errcode] at henc
        subst henc
        unfold raceExec
        simp [if_pos hq, upstreamStep, storeStep, encBytes, decode_S,
          Decoded.truthy, decodedJs, payloadJs, hb, hu, encode, errcode]
    | pbuf bb =>
      rw [hb] at henc
      simp [encode, errcode] at henc
      subst henc
      unfold raceExec
      simp [if_pos hq, upstreamStep, storeStep, encBytes, decode_B,
        Decoded.truthy, decodedJs, payloadJs, hb, hu, encode, errcode]
    | pabsent =>
      rw [hb] at henc
      simp [encode, errcode] at henc
  · intro e c u2 hec
    have h44 := errcode_vals (some e) c hec
    unfold raceExec
    rcases h44 with h4 | h4 <;> subst h4
    · cases henc2 : encode u2.err u2.buffer with
      | error e3 =>
        simp [if_pos hq, upstreamStep, storeStep, decode_E404,
          Decoded.truthy, henc2]
      | ok enc2 =>
        simp [if_pos hq, upstreamStep, storeStep, decode_E404,
          Decoded.truthy, henc2]
    · cases henc2 : encode u2.err u2.buffer with
      | error e3 =>
        simp [if_pos hq, upstreamStep, storeStep, decode_E403,
          Decoded.truthy, henc2]
      | ok enc2 =>
        simp [if_pos hq, upstreamStep, storeStep, decode_E403,
          Decoded.truthy, henc2]

/-- C9 witness: a binary payload round-trips through a readthrough hit
and through a race store-branch hit with the same value, and a 404 error
is reconstructed from an E404 entry in both strategies. -/
theorem C9_cache_hit_transparency_witness :
    (readthroughExec ⟨['T', 'L'], .num 300, 0, 10⟩ ⟨['u'], ['h']⟩
      (.val (some ['B', 'h'])) ⟨none, .pbuf ['h'], some 7⟩).deliveries
      = [⟨none, payloadJs (.pbuf ['h']), none⟩] ∧
    (readthroughExec ⟨['T', 'L'], .num 300, 0, 10⟩ ⟨['u'], ['h']⟩
      (.val (some ('E' :: natChars 404))) ⟨none, .pbuf ['h'], some 7⟩).deliveries
      = [⟨some ⟨some 404, some 404, true, []⟩, .vundefined, none⟩] ∧
    (raceExec ⟨['T', 'L'], .num 300, 0, 10⟩ ⟨['u'], ['h']⟩
      ⟨none, .pbuf ['h'], some 7⟩ (.val (some ['B', 'h'])) .storeFirst).deliveries
      = [⟨none, payloadJs (.pbuf ['h']), none⟩] ∧
    (raceExec ⟨['T', 'L'], .num 300, 0, 10⟩ ⟨['u'], ['h']⟩
      ⟨none, .pbuf ['h'], some 7⟩ (.val (some ('E' :: natChars 404)))
      .storeFirst).deliveries
      = [⟨some ⟨some 404, some 404, true, []⟩, .vundefined, none⟩] := by
  obtain ⟨h1, h2, h3, h4⟩ := C9_cache_hit_transparency ⟨['T', 'L'], .num 300, 0, 10⟩
    ⟨['u'], ['h']⟩ (by decide)
  exact ⟨h1 ⟨none, .pbuf ['h'], some 7⟩ (.buf ['B', 'h']) rfl rfl,
    h2 ⟨some 404, none, false, []⟩ 404 ⟨none, .pbuf ['h'], some 7⟩ rfl,
    h3 ⟨none, .pbuf ['h'], some 7⟩ (.buf ['B', 'h']) rfl rfl,
    h4 ⟨some 404, none, false, []⟩ 404 ⟨none, .pbuf ['h'], some 7⟩ rfl⟩

/-- C9 counterexample: the upstream outcome carries headers; the cache
hit delivers the same payload but no headers, so the delivered outcome is
not identical to what the undecorated upstream fetch would deliver. -/
theorem C9_cache_hit_transparency_cx :
    (readthroughExec ⟨['T', 'L'], .num 300, 0, 10⟩ ⟨['u'], ['h']⟩
      (.val (some ['B', 'h'])) ⟨none, .pbuf ['h'], some 7⟩).deliveries
      = [⟨none, .vbuf ['h'], none⟩] ∧
    upstreamDelivery ⟨none, .pbuf ['h'], some 7⟩ = ⟨none, .vbuf ['h'], some 7⟩ ∧
    (⟨none, .vbuf ['h'], none⟩ : Delivery) ≠ ⟨none, .vbuf ['h'], some 7⟩ := by
  refine ⟨rfl, rfl, ?_⟩
  simp
